import Mathlib

/-!
Verification of the sui-mev arbitrage bot core against its specification.

This file gives a shallow embedding, in Lean 4, of the pure decision logic of
the bot: the trial-route filter (`arb.rs`), epoch staleness (`simulator`),
path profit (`defi/mod.rs`), the gas-budget digest bump (`defi/trade.rs`),
golden-section search (`common/search.rs`), the arbitrage work cache
(`strategy/arb_cache.rs`), buy-path derivation, bid-amount finalization
(`types.rs` and `arb.rs`), and the final dry-run profitability gate
(`strategy/worker.rs`).  Machine integers are modelled as `Nat`/`Int`, with
wrapping taken mod `2 ^ 64` where the Rust release build would wrap.
Opaque chain payloads (digests, simulation contexts, object ids, addresses)
are modelled as `Nat`; coin types as `String`.
-/

namespace SuiMev

/-- Native coin type string, `sui_sdk::SUI_COIN_TYPE`. -/
def SUI_COIN_TYPE : String := "0x2::sui::SUI"

/-- Constant `GAS_BUDGET` from `config.rs`. -/
def GAS_BUDGET : Nat := 10000000000

/-! ## Dex legs and paths (`defi/mod.rs`, `defi/trade.rs`)

A `Box<dyn Dex>` is modelled by the data every adapter carries: the pool
object id, the in/out coin types, a protocol tag and liquidity.  Equality of
`Box<dyn Dex>` in the source (`impl PartialEq for Box<dyn Dex>`) compares
`object_id()` only. -/

structure Dex where
  protocol : String
  objectId : Nat
  coinInType : String
  coinOutType : String
  liquidity : Nat
  deriving DecidableEq, Repr

/-- Method `flip` of every adapter: `std::mem::swap(&mut self.coin_in_type,
&mut self.coin_out_type)`. -/
def Dex.flip (d : Dex) : Dex :=
  { d with coinInType := d.coinOutType, coinOutType := d.coinInType }

/-- Struct `Path` from `defi/trade.rs`. -/
structure Path where
  path : List Dex
  deriving DecidableEq, Repr

/-- Method `Path::is_disjoint`: the `HashSet<Box<dyn Dex>>` intersection test,
where set membership uses `object_id()` equality. -/
def Path.is_disjoint (p other : Path) : Bool :=
  p.path.all fun a => other.path.all fun b => a.objectId ≠ b.objectId

/-- Method `Path::contains_pool` from `defi/trade.rs` lines 402-408:
`Some(pool_id)` tests membership by `object_id()`, `None` returns `false`. -/
def Path.contains_pool (p : Path) (poolId : Option Nat) : Bool :=
  match poolId with
  | some pid => p.path.any fun dex => dex.objectId == pid
  | none => false

/-- Method `Path::coin_in_type`: `self.path[0].coin_in_type()` (the source
indexes the first leg; the empty-path case panics in Rust and is modelled by
`""`, never reached under the non-empty hypotheses used below). -/
def Path.coin_in_type (p : Path) : String :=
  match p.path with
  | d :: _ => d.coinInType
  | [] => ""

/-- Method `Path::coin_out_type`: `self.path.last().unwrap().coin_out_type()`
(empty-path case modelled by `""`). -/
def Path.coin_out_type (p : Path) : String :=
  match p.path.getLast? with
  | some d => d.coinOutType
  | none => ""

/-! ## Trial candidate routes (`arb.rs`, `TrialCtx::trial` lines 316-334)

After the best buy path is selected, `trial` builds the candidate full routes
by filtering the sell paths:

    if best_buy_path.is_disjoint(p)
        && (buy_path_contains_pool || p.contains_pool(self.pool_id)) {
      let mut path = best_buy_path.clone();
      path.path.extend(p.path.clone());
      Some(path)
    } else { None }
-/

/-- Candidate full routes built in `TrialCtx::trial` from the best buy path,
the optional trigger pool id, and the sell paths. -/
def tradePaths (bestBuyPath : Path) (poolId : Option Nat) (sellPaths : List Path) : List Path :=
  let buyPathContainsPool := bestBuyPath.contains_pool poolId
  sellPaths.filterMap fun p =>
    if bestBuyPath.is_disjoint p && (buyPathContainsPool || p.contains_pool poolId) then
      some ⟨bestBuyPath.path ++ p.path⟩
    else
      none

/-- Example legs used as concrete inputs below. -/
def dexA : Dex := ⟨"Cetus", 1, SUI_COIN_TYPE, "0xa::a::A", 5000⟩

/-- Example sell leg through a pool distinct from `dexA`. -/
def dexB : Dex := ⟨"Turbos", 2, "0xa::a::A", SUI_COIN_TYPE, 5000⟩

/-! ## Epoch staleness (`crates/simulator/src/lib.rs` lines 75-83 and
`strategy/mod.rs` lines 217-229) -/

/-- Struct `SimEpoch` from the simulator crate. -/
structure SimEpoch where
  epochId : Nat
  epochStartTimestamp : Nat
  epochDurationMs : Nat
  gasPrice : Nat
  deriving DecidableEq, Repr

/-- Method `SimEpoch::is_stale`: the source compares
`now_ms < epoch_start_timestamp + epoch_duration_ms` (note the direction of
the comparison; `now_ms` is the wall clock passed explicitly here). -/
def SimEpoch.is_stale (e : SimEpoch) (nowMs : Nat) : Bool :=
  nowMs < e.epochStartTimestamp + e.epochDurationMs

/-- Method `ArbStrategy::get_latest_epoch`: returns the cached epoch when it
is not `is_stale`, otherwise fetches `chainEpoch` from chain.  The second
component records whether a refresh from chain happened. -/
def getLatestEpoch (cached : Option SimEpoch) (nowMs : Nat) (chainEpoch : SimEpoch) :
    SimEpoch × Bool :=
  match cached with
  | some epoch => if ¬ epoch.is_stale nowMs then (epoch, false) else (chainEpoch, true)
  | none => (chainEpoch, true)

/-- Epoch fixture: starts at 0 and lasts 10 ms. -/
def epochFix : SimEpoch := ⟨1, 0, 10, 100⟩

/-- Second epoch fixture standing for the current on-chain epoch. -/
def epochChain : SimEpoch := ⟨2, 50, 10, 100⟩

/-! ## Path profit (`defi/mod.rs` lines 357-366) -/

/-- Struct `PathTradeResult` from `defi/mod.rs`. -/
structure PathTradeResult where
  path : Path
  amount_in : Nat
  amount_out : Nat
  gas_cost : Int
  cache_misses : Nat
  deriving DecidableEq, Repr

/-- Method `PathTradeResult::profit` from `defi/mod.rs` lines 357-366.  When
the input coin is native but the output coin is not, the source returns
`0 - gas_cost - amount_in`, not `0`. -/
def PathTradeResult.profit (r : PathTradeResult) : Int :=
  if r.path.coin_in_type = SUI_COIN_TYPE then
    if r.path.coin_out_type = SUI_COIN_TYPE then
      (r.amount_out : Int) - (r.amount_in : Int) - r.gas_cost
    else
      0 - r.gas_cost - (r.amount_in : Int)
  else 0

/-! ## Sources (`types.rs`) -/

/-- Enum `Source` from `types.rs` (field order as in the source). -/
inductive Source where
  | public
  | shio (oppTxDigest : Nat) (bidAmount : Nat) (start : Nat) (arbFound : Nat) (deadline : Nat)
  | shioDeadlineMissed (start : Nat) (arbFound : Nat) (deadline : Nat)
  deriving DecidableEq, Repr

/-- Method `Source::is_shio`. -/
def Source.is_shio : Source → Bool
  | .shio _ _ _ _ _ => true
  | _ => false

/-- Method `Source::opp_tx_digest`. -/
def Source.opp_tx_digest : Source → Option Nat
  | .shio oppTxDigest _ _ _ _ => some oppTxDigest
  | _ => none

/-- Method `Source::deadline`. -/
def Source.deadline : Source → Option Nat
  | .shio _ _ _ _ deadline => some deadline
  | _ => none

/-- Method `Source::bid_amount`. -/
def Source.bid_amount : Source → Nat
  | .shio _ bidAmount _ _ _ => bidAmount
  | _ => 0

/-- Method `Source::with_bid_amount`: rewrites the `bid_amount` field of a
`Shio` source, leaves any other source unchanged. -/
def Source.with_bid_amount (s : Source) (bidAmount : Nat) : Source :=
  match s with
  | .shio oppTxDigest _ start arbFound deadline =>
      .shio oppTxDigest bidAmount start arbFound deadline
  | _ => s

/-- Method `Source::with_arb_found_time`: stamps `arb_found`; a `Shio` source
past its deadline is demoted to `ShioDeadlineMissed`. -/
def Source.with_arb_found_time (s : Source) (arbFound : Nat) : Source :=
  match s with
  | .shio oppTxDigest bidAmount start _ deadline =>
      if arbFound < deadline then .shio oppTxDigest bidAmount start arbFound deadline
      else .shioDeadlineMissed start arbFound deadline
  | _ => s

/-- Source-update steps of `Arb::find_opportunity` (`arb.rs` lines 216-222):
stamp the arb-found time when the source has a deadline, then set the bid
amount to `*profit / 10 * 9`. -/
def finalizeSource (source : Source) (profit : Nat) (nowMs : Nat) : Source :=
  let source := if (source.deadline).isSome then source.with_arb_found_time nowMs else source
  source.with_bid_amount (profit / 10 * 9)

/-! ## Gas-budget digest bump (`defi/trade.rs`,
`Trader::get_flashloan_trade_tx` lines 232-246)

Transaction digests are opaque hash values with a total (lexicographic)
order, modelled as `Nat`; the dependence of `TransactionData::digest()` on
the rebuilt transaction's `gas_budget` (sender, gas coins, commands and gas
price held fixed) is modelled by an arbitrary function `digestOf`.  The
source loop

    let mut gas_budget = GAS_BUDGET;
    while tx_data.digest() <= opp_tx_digest {
        gas_budget += 1;
        tx_data = TransactionData::new_programmable(..., gas_budget, ...);
    }

has no bound in the source; `fuel` caps the modelled iteration count, and
all statements are conditioned on the loop returning. -/

/-- Digest-bump loop of `get_flashloan_trade_tx`, starting from `budget`. -/
def bumpGasBudget (digestOf : Nat → Nat) (oppDigest : Nat) : Nat → Nat → Option Nat
  | 0, _ => none
  | fuel + 1, budget =>
    if digestOf budget ≤ oppDigest then bumpGasBudget digestOf oppDigest fuel (budget + 1)
    else some budget

/-- Gas budget finally carried by the transaction returned from
`get_flashloan_trade_tx`: `GAS_BUDGET` when the source carries no
`opp_tx_digest`, otherwise the result of the digest-bump loop started at
`GAS_BUDGET`. -/
def flashloanGasBudget (digestOf : Nat → Nat) (oppTxDigest : Option Nat) (fuel : Nat) :
    Option Nat :=
  match oppTxDigest with
  | some opp => bumpGasBudget digestOf opp fuel GAS_BUDGET
  | none => some GAS_BUDGET

/-- When the bump loop returns a budget, the digest at that budget strictly
exceeds the opportunity digest, the budget is at least the starting one, and
every budget in between produced a digest that was still too small. -/
theorem bumpGasBudget_spec (digestOf : Nat → Nat) (oppDigest : Nat) :
    ∀ (fuel start b : Nat), bumpGasBudget digestOf oppDigest fuel start = some b →
      oppDigest < digestOf b ∧ start ≤ b ∧
        ∀ x, start ≤ x → x < b → digestOf x ≤ oppDigest := by
  intro fuel
  induction fuel with
  | zero => intro start b h; simp [bumpGasBudget] at h
  | succ n ih =>
    intro start b h
    rw [bumpGasBudget] at h
    by_cases hle : digestOf start ≤ oppDigest
    · rw [if_pos hle] at h
      obtain ⟨h1, h2, h3⟩ := ih (start + 1) b h
      refine ⟨h1, by omega, fun x hx1 hx2 => ?_⟩
      rcases Nat.eq_or_lt_of_le hx1 with heq | hlt
      · simpa [← heq] using hle
      · exact h3 x hlt hx2
    · rw [if_neg hle] at h
      obtain rfl : start = b := by simpa using h
      exact ⟨by omega, le_refl _, fun x hx1 hx2 => by omega⟩

/-! ## Buy paths (`defi/mod.rs`, `Defi::find_buy_paths` lines 230-240)

`find_sell_paths` queries the pool index over the network; its result is the
input here.  `find_buy_paths` reverses each sell path in place and then
flips every leg. -/

/-- Body of `Defi::find_buy_paths` applied to the list returned by
`find_sell_paths`. -/
def find_buy_paths (sellPaths : List Path) : List Path :=
  sellPaths.map fun p => ⟨(p.path.reverse).map Dex.flip⟩

/-! ## Final dry run (`strategy/worker.rs`, `Worker::dry_run_tx_data`
lines 111-131) -/

/-- Owner of a balance change (`sui_types::object::Owner`). -/
inductive Owner where
  | addressOwner (addr : Nat)
  | objectOwner (id : Nat)
  | shared (initialSharedVersion : Nat)
  | immutable
  deriving DecidableEq, Repr, BEq

/-- One entry of `SimulateResult::balance_changes`. -/
structure BalanceChange where
  owner : Owner
  coinType : String
  amount : Int
  deriving DecidableEq, Repr

/-- Components of the simulator response that `dry_run_tx_data` inspects:
the execution status and the balance-change list. -/
structure DryRunResp where
  statusOk : Bool
  balanceChanges : List BalanceChange
  deriving DecidableEq, Repr

/-- Decision logic of `Worker::dry_run_tx_data`: require a successful
simulation, then find the first balance change whose owner is the sender
(`find(|bc| bc.owner == Owner::AddressOwner(self.sender))`) and require its
amount to be strictly positive.  Returns `true` iff the dry run passes. -/
def dry_run_ok (sender : Nat) (resp : DryRunResp) : Bool :=
  resp.statusOk &&
    match resp.balanceChanges.find? (fun bc => bc.owner == Owner.addressOwner sender) with
    | some bc => decide (0 < bc.amount)
    | none => false

/-- Dry-run response where the first sender-owned balance change is a
positive non-native amount while the sender's native-coin delta is
negative. -/
def respMixed : DryRunResp :=
  ⟨true, [⟨Owner.addressOwner 1, "0xusdc::usdc::USDC", 5⟩,
          ⟨Owner.addressOwner 1, SUI_COIN_TYPE, -3⟩]⟩

/-! ## Golden-section search (`common/search.rs` lines 52-212)

The bot instantiates the generic search at `INP = u64`; release-build u64
arithmetic wraps, modelled by explicit `% 2 ^ 64`.  `goal.evaluate` is a
deterministic function `f : Nat → Nat × Out` returning the value to
maximize first and the auxiliary output second, exactly the `(INP, OUT)`
pair of the source trait.  The `while … tries < 1000` loop is modelled by a
fuel argument of 1000. -/

/-- Modulus of `u64` arithmetic. -/
def U64MOD : Nat := 2 ^ 64

/-- Wrapping `u64` addition. -/
def addW (a b : Nat) : Nat := (a + b) % U64MOD

/-- Wrapping `u64` multiplication. -/
def mulW (a b : Nat) : Nat := (a * b) % U64MOD

/-- Wrapping `u64` subtraction (for operands below `2 ^ 64`). -/
def subW (a b : Nat) : Nat := (a % U64MOD + (U64MOD - b % U64MOD)) % U64MOD

/-- Numerator of the rational approximation of the golden ratio. -/
def gssU : Nat := 14566495

/-- Denominator of the rational approximation of the golden ratio. -/
def gssD : Nat := 9002589

/-- The interval-shrink helper `c` of `golden_section_search_maximize`:
`if x * d < x { x / u * d } else { x * d / u }` (the first branch detects
`u64` overflow of `x * d`). -/
def gssC (x : Nat) : Nat :=
  if mulW x gssD < x then mulW (x / gssU) gssD else mulW x gssD / gssU

/-- The mutable locals of the search loop. -/
structure GssState (Out : Type) where
  left : Nat
  right : Nat
  midLeft : Nat
  midRight : Nat
  fl : Nat
  fr : Nat
  outLeft : Out
  outRight : Out
  maxIn : Nat
  maxF : Nat
  maxOut : Out

/-- The recurring running-max update
`if f > max_f { max_f = f; max_in = i; max_out = o }`. -/
def gssUpd {Out : Type} (v inp : Nat) (o : Out) (s : GssState Out) : GssState Out :=
  if v > s.maxF then { s with maxF := v, maxIn := inp, maxOut := o } else s

/-- The `while right - left > three && tries < 1000` loop of
`golden_section_search_maximize`, with the remaining tries as fuel. -/
def gssLoop {Out : Type} (f : Nat → Nat × Out) : Nat → GssState Out → GssState Out
  | 0, s => s
  | fuel + 1, s =>
    if subW s.right s.left > 3 then
      if s.fl < s.fr then
        let midRight := addW s.midLeft (gssC (subW s.right s.midLeft))
        gssLoop f fuel (gssUpd (f midRight).1 midRight (f midRight).2
          { s with left := s.midLeft, midLeft := s.midRight, midRight := midRight,
                   fl := s.fr, fr := (f midRight).1, outRight := (f midRight).2 })
      else
        let temp := subW s.midRight (gssC (subW s.midRight s.left))
        if temp < s.midLeft then
          gssLoop f fuel (gssUpd (f temp).1 temp (f temp).2
            { s with right := s.midRight, midRight := s.midLeft, midLeft := temp,
                     fr := s.fl, fl := (f temp).1, outLeft := (f temp).2 })
        else if temp = s.midLeft then
          let midRight := Nat.min (temp + 1) s.midRight
          gssLoop f fuel (gssUpd (f midRight).1 midRight (f midRight).2
            { s with right := s.midRight, midRight := midRight,
                     fr := (f midRight).1, outRight := (f midRight).2 })
        else
          gssLoop f fuel (gssUpd (f temp).1 temp (f temp).2
            { s with right := s.midRight, midRight := temp,
                     fr := (f temp).1, outRight := (f temp).2 })
    else s

/-- State after the pre-loop phase of the source: evaluate both endpoints,
seed the running max with the better one, place the two interior points
(bumping `mid_right` to `min(mid_left + 1, right)` when rounding collapsed
the interval), evaluate both interior points and fold them into the running
max. -/
def gssInit {Out : Type} (minI maxI : Nat) (f : Nat → Nat × Out) : GssState Out :=
  let init : Nat × Nat × Out :=
    if (f minI).1 < (f maxI).1 then (maxI, (f maxI).1, (f maxI).2)
    else (minI, (f minI).1, (f minI).2)
  let delta := gssC (subW maxI minI)
  let midLeft := subW maxI delta
  let midRight0 := addW minI delta
  let midRight := if midRight0 ≤ midLeft then Nat.min (midLeft + 1) maxI else midRight0
  let s0 : GssState Out :=
    { left := minI, right := maxI, midLeft := midLeft, midRight := midRight,
      fl := (f midLeft).1, fr := (f midRight).1,
      outLeft := (f midLeft).2, outRight := (f midRight).2,
      maxIn := init.1, maxF := init.2.1, maxOut := init.2.2 }
  gssUpd (f midRight).1 midRight (f midRight).2
    (gssUpd (f midLeft).1 midLeft (f midLeft).2 s0)

/-- The defensive final sweep: evaluate `left + 1` and `left + 2` (breaking
as soon as the probe reaches `right`) and fold them into the running max. -/
def gssSweep {Out : Type} (f : Nat → Nat × Out) (s : GssState Out) : GssState Out :=
  if addW 1 s.left ≥ s.right then s
  else
    let s4 := gssUpd (f (addW 1 s.left)).1 (addW 1 s.left) (f (addW 1 s.left)).2 s
    if addW 2 s4.left ≥ s4.right then s4
    else gssUpd (f (addW 2 s4.left)).1 (addW 2 s4.left) (f (addW 2 s4.left)).2 s4

/-- Function `golden_section_search_maximize` from `common/search.rs`:
pre-loop seeding, the golden-section loop (1000 tries), the final sweep,
returning `(max_in, max_f, max_out)`. -/
def golden_section_search_maximize {Out : Type} (minI maxI : Nat) (f : Nat → Nat × Out) :
    Nat × Nat × Out :=
  let s := gssSweep f (gssLoop f 1000 (gssInit minI maxI f))
  (s.maxIn, s.maxF, s.maxOut)

/-- Helper: one running-max update never decreases `max_f`. -/
theorem gssUpd_maxF_ge {Out : Type} (v inp : Nat) (o : Out) (s : GssState Out) (b : Nat)
    (hb : b ≤ s.maxF) : b ≤ (gssUpd v inp o s).maxF := by
  unfold gssUpd
  split
  · next hlt => exact le_trans hb (Nat.le_of_lt hlt)
  · exact hb

/-- Helper: the search loop never decreases `max_f`. -/
theorem gssLoop_maxF_le {Out : Type} (f : Nat → Nat × Out) :
    ∀ (fuel : Nat) (s : GssState Out), s.maxF ≤ (gssLoop f fuel s).maxF := by
  intro fuel
  induction fuel with
  | zero => intro s; exact le_refl _
  | succ n ih =>
    intro s
    simp only [gssLoop]
    split
    · split
      · exact (ih _).trans' (gssUpd_maxF_ge _ _ _ _ _ (le_refl _))
      · split
        · exact (ih _).trans' (gssUpd_maxF_ge _ _ _ _ _ (le_refl _))
        · split
          · exact (ih _).trans' (gssUpd_maxF_ge _ _ _ _ _ (le_refl _))
          · exact (ih _).trans' (gssUpd_maxF_ge _ _ _ _ _ (le_refl _))
    · exact le_refl _

/-- Helper: the final sweep never decreases `max_f`. -/
theorem gssSweep_maxF_le {Out : Type} (f : Nat → Nat × Out) (s : GssState Out) :
    s.maxF ≤ (gssSweep f s).maxF := by
  simp only [gssSweep]
  split
  · exact le_refl _
  · split
    · exact gssUpd_maxF_ge _ _ _ _ _ (le_refl _)
    · exact gssUpd_maxF_ge _ _ _ _ _ (gssUpd_maxF_ge _ _ _ _ _ (le_refl _))

/-- Helper: the pre-loop phase seeds `max_f` at least at both endpoint
values. -/
theorem gssInit_maxF {Out : Type} (minI maxI : Nat) (f : Nat → Nat × Out) :
    max (f minI).1 (f maxI).1 ≤ (gssInit minI maxI f).maxF := by
  simp only [gssInit]
  refine gssUpd_maxF_ge _ _ _ _ _ (gssUpd_maxF_ge _ _ _ _ _ ?_)
  by_cases hc : (f minI).1 < (f maxI).1
  · rw [if_pos hc]
    exact Nat.max_le.mpr ⟨Nat.le_of_lt hc, le_refl _⟩
  · rw [if_neg hc]
    exact Nat.max_le.mpr ⟨le_refl _, Nat.le_of_not_lt hc⟩

/-! ## Arb cache (`strategy/arb_cache.rs`)

`TransactionDigest` and `SimulateCtx` are opaque payloads for the cache and
are modelled as `Nat`; `Instant`s are `Nat` milliseconds passed explicitly
as `nowMs`.  The `HashMap<String, ArbEntry>` is modelled as an association
list with the usual replace-on-insert semantics; the `BinaryHeap<HeapItem>`
is modelled as a list from which `pop`/`peek` extract the minimum under the
source's ordering (earliest `expires_at`, ties by smallest `generation` —
the reversed `Ord` of `HeapItem` on a max-heap). -/

/-- Struct `ArbEntry`: the map value. -/
structure ArbEntry where
  digest : Nat
  simCtx : Nat
  generation : Nat
  expiresAt : Nat
  source : Source
  deriving DecidableEq, Repr

/-- Struct `HeapItem`. -/
structure HeapItem where
  expiresAt : Nat
  generation : Nat
  coin : String
  poolId : Option Nat
  deriving DecidableEq, Repr

/-- Struct `ArbItem`: the popped work item. -/
structure ArbItem where
  coin : String
  poolId : Option Nat
  txDigest : Nat
  simCtx : Nat
  source : Source
  deriving DecidableEq, Repr

/-- Struct `ArbCache`. -/
structure ArbCache where
  map : List (String × ArbEntry)
  heap : List HeapItem
  generationCounter : Nat
  expirationDuration : Nat
  deriving DecidableEq, Repr

/-- `HashMap::get`: the entry bound to the key, if any. -/
def mapLookup (coin : String) : List (String × ArbEntry) → Option ArbEntry
  | [] => none
  | (k, v) :: rest => if k = coin then some v else mapLookup coin rest

/-- `HashMap::insert`: replace any existing binding for the key. -/
def mapInsert (coin : String) (e : ArbEntry) (m : List (String × ArbEntry)) :
    List (String × ArbEntry) :=
  (coin, e) :: m.filter fun kv => kv.1 != coin

/-- `HashMap::remove`. -/
def mapRemove (coin : String) (m : List (String × ArbEntry)) : List (String × ArbEntry) :=
  m.filter fun kv => kv.1 != coin

/-- Heap priority from `impl Ord for HeapItem`: `(expires_at, generation)`
compared reversed on a max-heap, so pops yield the smallest
`(expires_at, generation)`. -/
def HeapItem.le (a b : HeapItem) : Bool :=
  Nat.blt a.expiresAt b.expiresAt ||
    (a.expiresAt == b.expiresAt && Nat.ble a.generation b.generation)

/-- `BinaryHeap::pop` (and `peek` plus `pop`, for the model): extract a
minimal item under `HeapItem.le` together with the remaining items. -/
def heapPopMin : List HeapItem → Option (HeapItem × List HeapItem)
  | [] => none
  | x :: xs =>
    match heapPopMin xs with
    | none => some (x, [])
    | some (y, rest) => if HeapItem.le x y then some (x, xs) else some (y, x :: rest)

/-- Constructor `ArbCache::new`. -/
def ArbCache.new (expirationDuration : Nat) : ArbCache :=
  ⟨[], [], 0, expirationDuration⟩

/-- Method `ArbCache::insert` (`arb_cache.rs` lines 84-118): bump the
generation counter, bind the coin to a fresh entry expiring at
`now + expiration_duration`, and push a matching heap item. -/
def ArbCache.insert (c : ArbCache) (nowMs : Nat) (coin : String) (poolId : Option Nat)
    (digest : Nat) (simCtx : Nat) (source : Source) : ArbCache :=
  let generation := c.generationCounter + 1
  let expiresAt := nowMs + c.expirationDuration
  { c with
    generationCounter := generation
    map := mapInsert coin ⟨digest, simCtx, generation, expiresAt, source⟩ c.map
    heap := ⟨expiresAt, generation, coin, poolId⟩ :: c.heap }

/-- Method `ArbCache::get` (`arb_cache.rs` lines 120-124): a plain map
lookup returning the digest and simulation context; no expiry check and no
clock access. -/
def ArbCache.get (c : ArbCache) (coin : String) : Option (Nat × Nat) :=
  (mapLookup coin c.map).map fun e => (e.digest, e.simCtx)

/-- Helper: `heapPopMin` returns `none` only on the empty heap. -/
theorem heapPopMin_eq_none : ∀ {l : List HeapItem}, heapPopMin l = none → l = [] := by
  intro l hl
  cases l with
  | nil => rfl
  | cons x xs =>
    rw [heapPopMin] at hl
    cases h : heapPopMin xs with
    | none => simp only [h] at hl; simp at hl
    | some pr =>
      obtain ⟨y, rest⟩ := pr
      simp only [h] at hl
      split at hl <;> simp at hl

/-- Helper for termination: popping the minimum shortens the heap. -/
theorem heapPopMin_length :
    ∀ {l : List HeapItem} {h : HeapItem} {rest : List HeapItem},
      heapPopMin l = some (h, rest) → rest.length + 1 = l.length := by
  intro l
  induction l with
  | nil => intro h rest hp; simp [heapPopMin] at hp
  | cons x xs ih =>
    intro h rest hp
    rw [heapPopMin] at hp
    cases hxs : heapPopMin xs with
    | none =>
      have hnil : xs = [] := heapPopMin_eq_none hxs
      subst hnil
      simp [heapPopMin] at hp
      simp [← hp.2]
    | some pr =>
      obtain ⟨y, rest2⟩ := pr
      simp only [hxs] at hp
      have hlen := ih hxs
      split at hp <;> simp only [Option.some.injEq, Prod.mk.injEq] at hp
      · rw [← hp.2]; simp
      · rw [← hp.2]; simp; omega

/-- Method `ArbCache::pop_one` (`arb_cache.rs` lines 157-183): pop heap
minima until one matches a live map entry of the same generation that has
not expired; such an entry is removed from the map and returned; an expired
current entry is removed from the map and the loop continues; a
stale-generation or unmapped item is discarded without touching the map. -/
def ArbCache.pop_one (c : ArbCache) (nowMs : Nat) : Option ArbItem × ArbCache :=
  match hp : heapPopMin c.heap with
  | none => (none, c)
  | some (top, rest) =>
    match mapLookup top.coin c.map with
    | some e =>
      if e.generation == top.generation then
        if nowMs < e.expiresAt then
          (some ⟨top.coin, top.poolId, e.digest, e.simCtx, e.source⟩,
            { c with heap := rest, map := mapRemove top.coin c.map })
        else
          ArbCache.pop_one { c with heap := rest, map := mapRemove top.coin c.map } nowMs
      else ArbCache.pop_one { c with heap := rest } nowMs
    | none => ArbCache.pop_one { c with heap := rest } nowMs
  termination_by c.heap.length
  decreasing_by
    all_goals have := heapPopMin_length hp
    all_goals simp
    all_goals omega

/-- Method `ArbCache::remove_expired` (`arb_cache.rs` lines 128-155): drain
heap minima while they are stale or belong to expired map entries,
collecting the coins of the expired entries removed from the map; stop at
the first live, unexpired top (left in the heap). -/
def ArbCache.remove_expired (c : ArbCache) (nowMs : Nat) : List String × ArbCache :=
  match hp : heapPopMin c.heap with
  | none => ([], c)
  | some (top, rest) =>
    match mapLookup top.coin c.map with
    | some e =>
      if e.generation != top.generation then
        ArbCache.remove_expired { c with heap := rest } nowMs
      else if e.expiresAt ≤ nowMs then
        let r := ArbCache.remove_expired
          { c with heap := rest, map := mapRemove top.coin c.map } nowMs
        (top.coin :: r.1, r.2)
      else ([], c)
    | none => ArbCache.remove_expired { c with heap := rest } nowMs
  termination_by c.heap.length
  decreasing_by
    all_goals have := heapPopMin_length hp
    all_goals simp
    all_goals omega

/-- One cache operation, with the wall-clock instant at which it runs. -/
inductive CacheOp where
  | insert (nowMs : Nat) (coin : String) (poolId : Option Nat)
      (digest : Nat) (simCtx : Nat) (source : Source)
  | popOne (nowMs : Nat)
  | removeExpired (nowMs : Nat)

/-- State reached after one cache operation (outputs discarded). -/
def applyOp (c : ArbCache) : CacheOp → ArbCache
  | .insert n coin p d s src => c.insert n coin p d s src
  | .popOne n => (c.pop_one n).2
  | .removeExpired n => (c.remove_expired n).2

/-- State reached after a sequence of cache operations. -/
def runOps (ops : List CacheOp) (c : ArbCache) : ArbCache :=
  ops.foldl applyOp c

/-- The cache invariant of the spec: the map binds each coin at most once,
every heap item's generation is bounded by the counter, and for every coin
in the map its entry's generation dominates the generation of every heap
item carrying that coin. -/
def CacheInv (c : ArbCache) : Prop :=
  (c.map.map Prod.fst).Nodup ∧
  (∀ h ∈ c.heap, h.generation ≤ c.generationCounter) ∧
  (∀ coin e, mapLookup coin c.map = some e →
    ∀ h ∈ c.heap, h.coin = coin → h.generation ≤ e.generation)

/-- Helper: filtering out one key leaves lookups of other keys unchanged. -/
theorem lookup_filter_ne (coin coin' : String) (m : List (String × ArbEntry))
    (h : coin' ≠ coin) :
    mapLookup coin' (m.filter fun kv => kv.1 != coin) = mapLookup coin' m := by
  induction m with
  | nil => rfl
  | cons kv rest ih =>
    obtain ⟨k, v⟩ := kv
    rw [List.filter_cons]
    by_cases hk : k = coin
    · have hb : ¬ ((k, v).1 != coin) = true := by simp [hk]
      have hk' : ¬ k = coin' := fun hh => h (hh ▸ hk)
      rw [if_neg hb, ih]
      conv_rhs => rw [mapLookup]
      rw [if_neg hk']
    · have hb : ((k, v).1 != coin) = true := by simp [hk]
      rw [if_pos hb]
      show (if k = coin' then some v else mapLookup coin' (rest.filter fun kv => kv.1 != coin))
          = if k = coin' then some v else mapLookup coin' rest
      by_cases hck : k = coin'
      · rw [if_pos hck, if_pos hck]
      · rw [if_neg hck, if_neg hck, ih]

/-- Helper: a lookup of the removed key fails. -/
theorem lookup_mapRemove_self (coin : String) (m : List (String × ArbEntry)) :
    mapLookup coin (mapRemove coin m) = none := by
  induction m with
  | nil => rfl
  | cons kv rest ih =>
    obtain ⟨k, v⟩ := kv
    rw [mapRemove, List.filter_cons]
    by_cases hk : k = coin
    · have hb : ¬ ((k, v).1 != coin) = true := by simp [hk]
      rw [if_neg hb]
      exact ih
    · have hb : ((k, v).1 != coin) = true := by simp [hk]
      rw [if_pos hb, mapLookup, if_neg hk]
      exact ih

/-- Helper: a lookup that succeeds after filtering out `coin` succeeds in the
original map with the same entry, for a key necessarily different from
`coin`. -/
theorem lookup_mapRemove_some (coin coin' : String) (m : List (String × ArbEntry))
    (e : ArbEntry) (h : mapLookup coin' (mapRemove coin m) = some e) :
    coin' ≠ coin ∧ mapLookup coin' m = some e := by
  by_cases hck : coin' = coin
  · subst hck
    rw [lookup_mapRemove_self] at h
    cases h
  · exact ⟨hck, (lookup_filter_ne coin coin' m hck).symm.trans h⟩

/-- Helper: `mapInsert` preserves key uniqueness. -/
theorem nodup_keys_mapInsert (coin : String) (e : ArbEntry) (m : List (String × ArbEntry))
    (h : (m.map Prod.fst).Nodup) : ((mapInsert coin e m).map Prod.fst).Nodup := by
  simp only [mapInsert, List.map_cons, List.nodup_cons]
  constructor
  · intro hmem
    obtain ⟨kv, hkv, hfst⟩ := List.mem_map.mp hmem
    have := (List.mem_filter.mp hkv).2
    simp [hfst] at this
  · exact ((List.filter_sublist m).map Prod.fst).nodup h

/-- Helper: `mapRemove` preserves key uniqueness. -/
theorem nodup_keys_mapRemove (coin : String) (m : List (String × ArbEntry))
    (h : (m.map Prod.fst).Nodup) : ((mapRemove coin m).map Prod.fst).Nodup :=
  ((List.filter_sublist m).map Prod.fst).nodup h

/-- Helper: both components extracted by `heapPopMin` are items of the input
heap. -/
theorem heapPopMin_mem :
    ∀ {l : List HeapItem} {top : HeapItem} {rest : List HeapItem},
      heapPopMin l = some (top, rest) → top ∈ l ∧ ∀ x ∈ rest, x ∈ l := by
  intro l
  induction l with
  | nil => intro top rest hp; simp [heapPopMin] at hp
  | cons x xs ih =>
    intro top rest hp
    rw [heapPopMin] at hp
    cases hxs : heapPopMin xs with
    | none =>
      have hnil : xs = [] := heapPopMin_eq_none hxs
      subst hnil
      simp [heapPopMin] at hp
      obtain ⟨h1, h2⟩ := hp
      subst h1
      subst h2
      simp
    | some pr =>
      obtain ⟨y, rest2⟩ := pr
      simp only [hxs] at hp
      obtain ⟨hy, hrest2⟩ := ih hxs
      split at hp <;> simp only [Option.some.injEq, Prod.mk.injEq] at hp
      · refine ⟨by simp [← hp.1], fun z hz => by simp [← hp.2] at hz; simp [hz]⟩
      · refine ⟨by simp [← hp.1, hy], fun z hz => ?_⟩
        rw [← hp.2] at hz
        rcases List.mem_cons.mp hz with hz | hz
        · simp [hz]
        · simp [hrest2 z hz]

/-- Helper: the invariant survives replacing the heap by any subset of
itself. -/
theorem cacheInv_heapSubset (c : ArbCache) (rest : List HeapItem)
    (hsub : ∀ x ∈ rest, x ∈ c.heap) (hinv : CacheInv c) :
    CacheInv { c with heap := rest } := by
  obtain ⟨h1, h2, h3⟩ := hinv
  exact ⟨h1, fun h hh => h2 h (hsub h hh),
    fun coin e he h hh hc => h3 coin e he h (hsub h hh) hc⟩

/-- Helper: the invariant survives removing one coin from the map and
replacing the heap by any subset of itself. -/
theorem cacheInv_removeShrink (c : ArbCache) (coin : String) (rest : List HeapItem)
    (hsub : ∀ x ∈ rest, x ∈ c.heap) (hinv : CacheInv c) :
    CacheInv { c with heap := rest, map := mapRemove coin c.map } := by
  obtain ⟨h1, h2, h3⟩ := hinv
  refine ⟨nodup_keys_mapRemove coin c.map h1, fun h hh => h2 h (hsub h hh), ?_⟩
  intro coin' e he h hh hc
  obtain ⟨-, he'⟩ := lookup_mapRemove_some coin coin' c.map e he
  exact h3 coin' e he' h (hsub h hh) hc

/-- Helper: `ArbCache::insert` preserves the invariant. -/
theorem cacheInv_insert (c : ArbCache) (nowMs : Nat) (coin : String) (poolId : Option Nat)
    (digest simCtx : Nat) (source : Source) (hinv : CacheInv c) :
    CacheInv (c.insert nowMs coin poolId digest simCtx source) := by
  obtain ⟨h1, h2, h3⟩ := hinv
  refine ⟨nodup_keys_mapInsert coin _ c.map h1, ?_, ?_⟩
  · intro h hh
    simp only [ArbCache.insert, List.mem_cons] at hh ⊢
    rcases hh with hh | hh
    · simp [hh]
    · exact Nat.le_succ_of_le (h2 h hh)
  · intro coin' e he h hh hc
    simp only [ArbCache.insert] at he hh ⊢
    by_cases hcc : coin' = coin
    · subst hcc
      have : e = ⟨digest, simCtx, c.generationCounter + 1, nowMs + c.expirationDuration,
          source⟩ := by
        rw [mapInsert, mapLookup, if_pos rfl] at he
        exact (Option.some.inj he).symm
      subst this
      rcases List.mem_cons.mp hh with hh | hh
      · simp [hh]
      · exact Nat.le_succ_of_le (h2 h hh)
    · rw [show mapLookup coin' (mapInsert coin
            ⟨digest, simCtx, c.generationCounter + 1, nowMs + c.expirationDuration, source⟩
            c.map) = mapLookup coin' c.map from by
          rw [mapInsert, mapLookup, if_neg (fun hh : coin = coin' => hcc hh.symm)]
          exact lookup_filter_ne coin coin' c.map hcc] at he
      rcases List.mem_cons.mp hh with hh | hh
      · subst hh; simp at hc; exact absurd hc.symm hcc
      · exact h3 coin' e he h hh hc

/-- Helper: `ArbCache::pop_one` preserves the invariant. -/
theorem cacheInv_pop_one (c : ArbCache) (nowMs : Nat) (hinv : CacheInv c) :
    CacheInv (c.pop_one nowMs).2 := by
  induction c, nowMs using ArbCache.pop_one.induct with
  | case1 c nowMs hp =>
    rw [ArbCache.pop_one]
    split
    · exact hinv
    · next top rest heq => rw [hp] at heq; cases heq
  | case2 c nowMs top rest hp e he hgen hlive =>
    rw [ArbCache.pop_one]
    split
    · next heq => rw [hp] at heq; cases heq
    · next top2 rest2 heq =>
      rw [hp] at heq
      obtain ⟨h1, h2⟩ : top = top2 ∧ rest = rest2 := by simpa using heq
      subst h1; subst h2
      simp only [he]
      rw [if_pos hgen, if_pos hlive]
      exact cacheInv_removeShrink c top.coin rest (heapPopMin_mem hp).2 hinv
  | case3 c nowMs top rest hp e he hgen hdead ih =>
    rw [ArbCache.pop_one]
    split
    · next heq => rw [hp] at heq; cases heq
    · next top2 rest2 heq =>
      rw [hp] at heq
      obtain ⟨h1, h2⟩ : top = top2 ∧ rest = rest2 := by simpa using heq
      subst h1; subst h2
      simp only [he]
      rw [if_pos hgen, if_neg hdead]
      exact ih (cacheInv_removeShrink c top.coin rest (heapPopMin_mem hp).2 hinv)
  | case4 c nowMs top rest hp e he hgen ih =>
    rw [ArbCache.pop_one]
    split
    · next heq => rw [hp] at heq; cases heq
    · next top2 rest2 heq =>
      rw [hp] at heq
      obtain ⟨h1, h2⟩ : top = top2 ∧ rest = rest2 := by simpa using heq
      subst h1; subst h2
      simp only [he]
      rw [if_neg hgen]
      exact ih (cacheInv_heapSubset c rest (heapPopMin_mem hp).2 hinv)
  | case5 c nowMs top rest hp he ih =>
    rw [ArbCache.pop_one]
    split
    · next heq => rw [hp] at heq; cases heq
    · next top2 rest2 heq =>
      rw [hp] at heq
      obtain ⟨h1, h2⟩ : top = top2 ∧ rest = rest2 := by simpa using heq
      subst h1; subst h2
      simp only [he]
      exact ih (cacheInv_heapSubset c rest (heapPopMin_mem hp).2 hinv)

/-- Helper: `ArbCache::remove_expired` preserves the invariant. -/
theorem cacheInv_remove_expired (c : ArbCache) (nowMs : Nat) (hinv : CacheInv c) :
    CacheInv (c.remove_expired nowMs).2 := by
  induction c, nowMs using ArbCache.remove_expired.induct with
  | case1 c nowMs hp =>
    rw [ArbCache.remove_expired]
    split
    · exact hinv
    · next top rest heq => rw [hp] at heq; cases heq
  | case2 c nowMs top rest hp e he hgen ih =>
    rw [ArbCache.remove_expired]
    split
    · next heq => rw [hp] at heq; cases heq
    · next top2 rest2 heq =>
      rw [hp] at heq
      obtain ⟨h1, h2⟩ : top = top2 ∧ rest = rest2 := by simpa using heq
      subst h1; subst h2
      simp only [he]
      rw [if_pos hgen]
      exact ih (cacheInv_heapSubset c rest (heapPopMin_mem hp).2 hinv)
  | case3 c nowMs top rest hp e he hgen hexp ih =>
    rw [ArbCache.remove_expired]
    split
    · next heq => rw [hp] at heq; cases heq
    · next top2 rest2 heq =>
      rw [hp] at heq
      obtain ⟨h1, h2⟩ : top = top2 ∧ rest = rest2 := by simpa using heq
      subst h1; subst h2
      simp only [he]
      rw [if_neg hgen, if_pos hexp]
      exact ih (cacheInv_removeShrink c top.coin rest (heapPopMin_mem hp).2 hinv)
  | case4 c nowMs top rest hp e he hgen hexp =>
    rw [ArbCache.remove_expired]
    split
    · next heq => rw [hp] at heq; cases heq
    · next top2 rest2 heq =>
      rw [hp] at heq
      obtain ⟨h1, h2⟩ : top = top2 ∧ rest = rest2 := by simpa using heq
      subst h1; subst h2
      simp only [he]
      rw [if_neg hgen, if_neg hexp]
      exact hinv
  | case5 c nowMs top rest hp he ih =>
    rw [ArbCache.remove_expired]
    split
    · next heq => rw [hp] at heq; cases heq
    · next top2 rest2 heq =>
      rw [hp] at heq
      obtain ⟨h1, h2⟩ : top = top2 ∧ rest = rest2 := by simpa using heq
      subst h1; subst h2
      simp only [he]
      exact ih (cacheInv_heapSubset c rest (heapPopMin_mem hp).2 hinv)

/-- Helper: the invariant holds after any operation sequence from a fresh
cache. -/
theorem cacheInv_runOps_aux (ops : List CacheOp) :
    ∀ c : ArbCache, CacheInv c → CacheInv (runOps ops c) := by
  induction ops with
  | nil => intro c h; exact h
  | cons op rest ih =>
    intro c h
    refine ih (applyOp c op) ?_
    cases op with
    | insert n coin p d s src => exact cacheInv_insert c n coin p d s src h
    | popOne n => exact cacheInv_pop_one c n h
    | removeExpired n => exact cacheInv_remove_expired c n h

/-- C1: the spec demands that, when no trigger pool is given
(`pool_id = None`), every sell path disjoint from the best buy path is kept
as a candidate full route.  The code disagrees: `Path::contains_pool(None)`
is `false`, so the filter condition
`is_disjoint && (buy_contains || sell_contains)` rejects every sell path and
`trial` can never find a candidate.  First conjunct: with `pool_id = None`
the candidate list is empty for every best buy path and every sell-path
list.  Remaining conjuncts: a concrete disjoint sell path that the spec says
must be kept is nevertheless dropped. -/
theorem c1_trial_no_pool_drops_all_candidates :
    (∀ (bestBuy : Path) (sells : List Path), tradePaths bestBuy none sells = []) ∧
    Path.is_disjoint ⟨[dexA]⟩ ⟨[dexB]⟩ = true ∧
    tradePaths ⟨[dexA]⟩ none [⟨[dexB]⟩] = [] := by
  refine ⟨fun bestBuy sells => ?_, by decide, by decide⟩
  simp [tradePaths, Path.contains_pool]

/-- C2: the spec states `is_stale` holds iff the wall clock is strictly past
`epoch_start_timestamp + epoch_duration_ms`.  The source comparison is
inverted: it returns `now < start + duration`.  At `now = 20`, strictly past
the fixture epoch's end `0 + 10`, `is_stale` returns `false` and the
pipeline keeps serving the cached, actually-stale epoch; at `now = 5`,
inside the epoch, `is_stale` returns `true` and the pipeline refreshes. -/
theorem c2_is_stale_comparison_inverted :
    (0 + 10 < 20 ∧ epochFix.is_stale 20 = false ∧
      getLatestEpoch (some epochFix) 20 epochChain = (epochFix, false)) ∧
    (5 < 0 + 10 ∧ epochFix.is_stale 5 = true ∧
      getLatestEpoch (some epochFix) 5 epochChain = (epochChain, true)) := by
  decide

/-- C3 counterexample: a `PathTradeResult` whose path goes from the native
coin to a non-native coin has `profit = 0 - gas_cost - amount_in`, not `0`
as the claim states.  Concretely, with `amount_in = 5`, `gas_cost = 2` the
profit is `-7 ≠ 0`. -/
theorem c3_profit_nonnative_out_counterexample :
    (Path.coin_in_type ⟨[dexA]⟩ = SUI_COIN_TYPE ∧
      Path.coin_out_type ⟨[dexA]⟩ ≠ SUI_COIN_TYPE) ∧
    PathTradeResult.profit ⟨⟨[dexA]⟩, 5, 0, 2, 0⟩ = -7 ∧ (-7 : Int) ≠ 0 := by
  refine ⟨⟨rfl, by decide⟩, by decide, by decide⟩

/-- C3 amended: `profit` is `amount_out - amount_in - gas_cost` when both
endpoint coins are native, `-gas_cost - amount_in` when only the input coin
is native, and `0` when the input coin is not native. -/
theorem c3_profit_cases (r : PathTradeResult) :
    (r.path.coin_in_type = SUI_COIN_TYPE → r.path.coin_out_type = SUI_COIN_TYPE →
      r.profit = (r.amount_out : Int) - r.amount_in - r.gas_cost) ∧
    (r.path.coin_in_type = SUI_COIN_TYPE → r.path.coin_out_type ≠ SUI_COIN_TYPE →
      r.profit = -r.gas_cost - r.amount_in) ∧
    (r.path.coin_in_type ≠ SUI_COIN_TYPE → r.profit = 0) := by
  refine ⟨fun h1 h2 => ?_, fun h1 h2 => ?_, fun h1 => ?_⟩
  · simp [PathTradeResult.profit, h1, h2]
  · simp [PathTradeResult.profit, h1, h2]
  · simp [PathTradeResult.profit, h1]

/-- C3 amended witness: the three cases of `c3_profit_cases` discharged at
concrete inputs (native→native, native→nonnative, nonnative input). -/
theorem c3_profit_cases_witness :
    PathTradeResult.profit ⟨⟨[dexA, dexB]⟩, 5, 20, 2, 0⟩ = 13 ∧
    PathTradeResult.profit ⟨⟨[dexA]⟩, 5, 0, 2, 0⟩ = -7 ∧
    PathTradeResult.profit ⟨⟨[dexB]⟩, 5, 0, 2, 0⟩ = 0 := by
  refine ⟨?_, ?_, ?_⟩
  · exact ((c3_profit_cases ⟨⟨[dexA, dexB]⟩, 5, 20, 2, 0⟩).1 (by decide) (by decide)).trans
      (by decide)
  · exact ((c3_profit_cases ⟨⟨[dexA]⟩, 5, 0, 2, 0⟩).2.1 (by decide) (by decide)).trans
      (by decide)
  · exact (c3_profit_cases ⟨⟨[dexB]⟩, 5, 0, 2, 0⟩).2.2 (by decide)

/-- C4: whenever the sealed-auction digest-bump loop of
`get_flashloan_trade_tx` returns a transaction (a gas budget `b`), the
transaction's digest strictly exceeds the trigger transaction's digest, and
`b` was reached by unit increments from `GAS_BUDGET`: `b ≥ GAS_BUDGET` and
every budget between `GAS_BUDGET` and `b` still produced a digest less than
or equal to the trigger's. -/
theorem c4_digest_ordering (digestOf : Nat → Nat) (opp fuel b : Nat)
    (h : flashloanGasBudget digestOf (some opp) fuel = some b) :
    opp < digestOf b ∧ GAS_BUDGET ≤ b ∧
      ∀ x, GAS_BUDGET ≤ x → x < b → digestOf x ≤ opp :=
  bumpGasBudget_spec digestOf opp fuel GAS_BUDGET b h

/-- C4 witness: with the identity digest function and a trigger digest of
`GAS_BUDGET + 2`, the loop stops at budget `GAS_BUDGET + 3`, whose digest
strictly exceeds the trigger's. -/
theorem c4_digest_ordering_witness :
    flashloanGasBudget id (some (GAS_BUDGET + 2)) 10 = some (GAS_BUDGET + 3) ∧
    GAS_BUDGET + 2 < id (GAS_BUDGET + 3) := by
  have h : flashloanGasBudget id (some (GAS_BUDGET + 2)) 10 = some (GAS_BUDGET + 3) := by
    simp [flashloanGasBudget, bumpGasBudget, GAS_BUDGET]
  exact ⟨h, (c4_digest_ordering id (GAS_BUDGET + 2) 10 (GAS_BUDGET + 3) h).1⟩

/-- C7: `find_buy_paths` returns one path per sell path, in the same order,
and the `i`-th output is the `i`-th sell path with its leg sequence reversed
and every leg flipped; `flip` swaps exactly the in/out coin types, leaving
pool id, protocol and liquidity unchanged. -/
theorem c7_buy_sell_duality (sells : List Path) :
    (find_buy_paths sells).length = sells.length ∧
    (∀ i : Nat, (find_buy_paths sells)[i]? =
      (sells[i]?).map fun p => ⟨(p.path.map Dex.flip).reverse⟩) ∧
    (∀ d : Dex, (Dex.flip d).coinInType = d.coinOutType ∧
      (Dex.flip d).coinOutType = d.coinInType ∧ (Dex.flip d).objectId = d.objectId ∧
      (Dex.flip d).protocol = d.protocol ∧ (Dex.flip d).liquidity = d.liquidity) := by
  refine ⟨by simp [find_buy_paths], fun i => ?_, fun d => by simp [Dex.flip]⟩
  simp [find_buy_paths, List.getElem?_map, List.map_reverse]

/-- C8 counterexample: the claim reads `bid_amount = profit · 9/10`, i.e.
`⌊profit · 9 / 10⌋` over the integers; the source computes
`profit / 10 * 9`, dividing first.  At `profit = 19` the source sets the bid
to `9` while `⌊19 · 9 / 10⌋ = 17`. -/
theorem c8_bid_amount_counterexample :
    Source.bid_amount (finalizeSource (Source.shio 7 0 0 0 100) 19 50) = 9 ∧
    19 * 9 / 10 = 17 ∧ (9 : Nat) ≠ 17 := by
  decide

/-- C8 amended: after a profitable search, `find_opportunity` stamps the
arb-found time and sets the bid to `9 · ⌊profit / 10⌋` (integer division by
ten first, then times nine) on a `Shio` source still within its deadline;
`with_bid_amount` leaves every non-`Shio` source unchanged. -/
theorem c8_bid_amount_amended (profit nowMs opp bid st af dl b : Nat) (h : nowMs < dl) :
    finalizeSource (Source.shio opp bid st af dl) profit nowMs =
      Source.shio opp (9 * (profit / 10)) st nowMs dl ∧
    ∀ s : Source, s.is_shio = false → s.with_bid_amount b = s := by
  constructor
  · simp [finalizeSource, Source.deadline, Source.with_arb_found_time, if_pos h,
      Source.with_bid_amount, Nat.mul_comm]
  · intro s hs
    cases s with
    | public => rfl
    | shio _ _ _ _ _ => simp [Source.is_shio] at hs
    | shioDeadlineMissed _ _ _ => rfl

/-- C8 amended witness: `c8_bid_amount_amended` at `profit = 19`,
`now = 50 < 100 = deadline`: the bid becomes `9 = 9 · ⌊19/10⌋`, and
`with_bid_amount` fixes the `Public` source. -/
theorem c8_bid_amount_amended_witness :
    finalizeSource (Source.shio 7 0 0 0 100) 19 50 = Source.shio 7 9 0 50 100 ∧
    Source.with_bid_amount Source.public 17 = Source.public := by
  have h := c8_bid_amount_amended 19 50 7 0 0 0 100 17 (by decide)
  exact ⟨h.1.trans (by decide), h.2 Source.public rfl⟩

/-- C9 counterexample: `dry_run_tx_data` checks the first balance change
owned by the sender, with no native-coin filter.  In `respMixed` the
sender's native-coin delta is `-3 ≤ 0`, yet the dry run passes because the
first sender-owned change (a non-native coin) is positive. -/
theorem c9_dry_run_counterexample :
    dry_run_ok 1 respMixed = true ∧
    respMixed.balanceChanges.find?
        (fun bc => bc.owner == Owner.addressOwner 1 && bc.coinType == SUI_COIN_TYPE) =
      some ⟨Owner.addressOwner 1, SUI_COIN_TYPE, -3⟩ ∧
    ¬ (0 : Int) < -3 := by
  refine ⟨by decide, by decide, by decide⟩

/-- C6: after any finite sequence of `insert`, `pop_one` and
`remove_expired` operations on a fresh cache, the map binds each coin at
most once and, for every coin in the map, the entry's generation dominates
the generation of every heap item carrying that coin; moreover a heap
minimum whose generation differs from its coin's live map entry is
discarded by `pop_one` and by `remove_expired` without modifying the map
(the whole call equals the call on the cache with that item dropped). -/
theorem c6_cache_invariant :
    (∀ (ops : List CacheOp) (ttl : Nat), CacheInv (runOps ops (ArbCache.new ttl))) ∧
    (∀ (c : ArbCache) (nowMs : Nat) (top : HeapItem) (rest : List HeapItem) (e : ArbEntry),
      heapPopMin c.heap = some (top, rest) →
      mapLookup top.coin c.map = some e →
      e.generation ≠ top.generation →
      c.pop_one nowMs = ArbCache.pop_one { c with heap := rest } nowMs ∧
      c.remove_expired nowMs = ArbCache.remove_expired { c with heap := rest } nowMs) := by
  constructor
  · intro ops ttl
    refine cacheInv_runOps_aux ops (ArbCache.new ttl) ⟨?_, ?_, ?_⟩
    · simp [ArbCache.new]
    · intro h hh; simp [ArbCache.new] at hh
    · intro coin e he; simp [ArbCache.new, mapLookup] at he
  · intro c nowMs top rest e hp he hgen
    constructor
    · rw [ArbCache.pop_one]
      split
      · next heq => rw [hp] at heq; cases heq
      · next top2 rest2 heq =>
        rw [hp] at heq
        obtain ⟨h1, h2⟩ : top = top2 ∧ rest = rest2 := by simpa using heq
        subst h1; subst h2
        simp only [he]
        rw [if_neg (by simp [hgen])]
    · rw [ArbCache.remove_expired]
      split
      · next heq => rw [hp] at heq; cases heq
      · next top2 rest2 heq =>
        rw [hp] at heq
        obtain ⟨h1, h2⟩ : top = top2 ∧ rest = rest2 := by simpa using heq
        subst h1; subst h2
        simp only [he]
        rw [if_pos (by simp [hgen])]

/-- Cache fixture: two inserts for the same coin, so the older heap item is
stale (generation 1 against the live generation 2). -/
def cacheEx : ArbCache :=
  ((ArbCache.new 5).insert 0 "C" none 1 1 Source.public).insert 1 "C" (some 9) 2 2
    Source.public

/-- Cache fixture with the stale heap minimum dropped. -/
def cacheExRest : ArbCache := { cacheEx with heap := [⟨6, 2, "C", some 9⟩] }

/-- C6 witness: the invariant after a concrete operation sequence, and the
stale-discard equations on `cacheEx`, whose heap minimum carries stale
generation 1 while the map holds generation 2. -/
theorem c6_cache_invariant_witness :
    CacheInv (runOps [CacheOp.insert 0 "C" none 1 1 Source.public,
        CacheOp.insert 1 "C" (some 9) 2 2 Source.public, CacheOp.popOne 3,
        CacheOp.removeExpired 10] (ArbCache.new 5)) ∧
    cacheEx.pop_one 3 = ArbCache.pop_one cacheExRest 3 ∧
    cacheEx.remove_expired 3 = ArbCache.remove_expired cacheExRest 3 := by
  refine ⟨c6_cache_invariant.1 _ 5, ?_⟩
  exact c6_cache_invariant.2 cacheEx 3 ⟨5, 1, "C", none⟩ [⟨6, 2, "C", some 9⟩]
    ⟨2, 2, 2, 6, Source.public⟩ (by decide) rfl (by decide)

/-- C10: `ArbCache::get` is a pure map lookup: whenever the map holds an
entry for a coin, `get` returns its digest and simulation context, with no
expiry check — in particular even at instants past the entry's
`expires_at`. -/
theorem c10_get_ignores_expiry (c : ArbCache) (coin : String) (e : ArbEntry) (nowMs : Nat)
    (hmap : mapLookup coin c.map = some e) (hexp : e.expiresAt ≤ nowMs) :
    c.get coin = some (e.digest, e.simCtx) := by
  simp [ArbCache.get, hmap]

/-- C10 witness: in `cacheEx` the entry for `"C"` expires at instant 6; at
instant 100 it is long expired, yet `get` still returns it. -/
theorem c10_get_ignores_expiry_witness :
    mapLookup "C" cacheEx.map = some ⟨2, 2, 2, 6, Source.public⟩ ∧
    (6 : Nat) ≤ 100 ∧ cacheEx.get "C" = some (2, 2) :=
  ⟨rfl, by omega,
    c10_get_ignores_expiry cacheEx "C" ⟨2, 2, 2, 6, Source.public⟩ 100 rfl (by decide)⟩

/-- C9 amended: the final dry run returns `Ok` iff the simulation succeeded
and the first balance change owned by the sender — regardless of its coin
type — has strictly positive amount; in particular it errs when the sender
has no balance change at all, and on error the worker submits nothing. -/
theorem c9_dry_run_amended (sender : Nat) (resp : DryRunResp) :
    dry_run_ok sender resp = true ↔
      resp.statusOk = true ∧
        ∃ bc, resp.balanceChanges.find? (fun bc => bc.owner == Owner.addressOwner sender) =
            some bc ∧ 0 < bc.amount := by
  unfold dry_run_ok
  cases hf : resp.balanceChanges.find? (fun bc => bc.owner == Owner.addressOwner sender) with
  | none => simp
  | some bc => simp [hf]

/-- C5: for every deterministic evaluation function and every interval with
`lo < hi`, the maximum value reported by `golden_section_search_maximize`
is at least the value at either endpoint: both endpoints are evaluated
before the main loop and the running max never decreases thereafter. -/
theorem c5_gss_dominates_endpoints {Out : Type} (f : Nat → Nat × Out) (minI maxI : Nat)
    (h : minI < maxI) :
    (golden_section_search_maximize minI maxI f).2.1 ≥ max (f minI).1 (f maxI).1 := by
  have h1 := gssInit_maxF minI maxI f
  have h2 := gssLoop_maxF_le f 1000 (gssInit minI maxI f)
  have h3 := gssSweep_maxF_le f (gssLoop f 1000 (gssInit minI maxI f))
  simpa [golden_section_search_maximize] using le_trans h1 (le_trans h2 h3)

/-- C5 witness: on `f(x) = (10 x, 0)` over `[1, 9]` the reported maximum is
at least `90 = max(f(1), f(9))`. -/
theorem c5_gss_dominates_endpoints_witness :
    (1 : Nat) < 9 ∧
    90 ≤ (golden_section_search_maximize 1 9 (fun x => (10 * x, (0 : Nat)))).2.1 := by
  have h := c5_gss_dominates_endpoints (fun x => (10 * x, (0 : Nat))) 1 9 (by decide)
  exact ⟨by decide, le_trans (by decide) h⟩

end SuiMev
